import Mathlib

/-!
Verification of the encoding-resolution core of `isort/io.py`.

The Python module is shallowly embedded: byte strings are `List Nat`
(each entry one byte), Python `str` values are Lean `String`, raised
exceptions are `Except PyError` results, and the external collaborators
(the filesystem and the codecs registry) are explicit parameters.
-/

namespace Isort

/-! ## Byte classes used by the declaration pattern

The source compiles the pattern
`^[ \t\f]*#.*?coding[:=][ \t]*([-_.a-zA-Z0-9]+)` over bytes
(`_ENCODING_PATTERN` in io.py).  We embed the match of this fixed
pattern directly as byte-list functions.
-/

/-- Membership in the byte class left-bracket space, tab, form feed right-bracket. -/
def isSpaceTabFF (b : Nat) : Bool :=
  b = 32 || b = 9 || b = 12

/-- Membership in the byte class left-bracket space, tab right-bracket. -/
def isSpaceTab (b : Nat) : Bool :=
  b = 32 || b = 9

/-- Membership of a byte in the captured-identifier class:
hyphen, underscore, dot, a-z, A-Z, 0-9. -/
def isIdentByte (b : Nat) : Bool :=
  b = 45 || b = 95 || b = 46 ||
    (97 ≤ b && b ≤ 122) || (65 ≤ b && b ≤ 90) || (48 ≤ b && b ≤ 57)

/-- After the literal token `coding` the pattern requires a colon or an
equals sign, then an optional run of spaces and tabs, then at least one
identifier byte; the maximal identifier run is the captured group. -/
def codingTail (l : List Nat) : Option (List Nat) :=
  match l with
  | [] => none
  | c :: rest =>
    if c = 58 || c = 61 then
      let ident := (rest.dropWhile (fun b => isSpaceTab b)).takeWhile
        (fun b => isIdentByte b)
      if ident.isEmpty then none else some ident
    else none

/-- Attempt to match `coding[:=][ \t]*([-_.a-zA-Z0-9]+)` at the head of `l`. -/
def tryCoding (l : List Nat) : Option (List Nat) :=
  if l.take 6 = [99, 111, 100, 105, 110, 103] then codingTail (l.drop 6) else none

/-- The non-greedy `.*?coding...` search: try the `coding` tail at each
position; a byte skipped over by `.*?` must not be a newline (`.` does
not match `\n` in the source pattern). -/
def searchCoding : List Nat → Option (List Nat)
  | [] => none
  | b :: rest =>
    match tryCoding (b :: rest) with
    | some g => some g
    | none => if b = 10 then none else searchCoding rest

/-- Match of the full anchored pattern `_ENCODING_PATTERN` against one
line of bytes, returning the captured group: a maximal run of
space/tab/form-feed bytes (the greedy `[ \t\f]*` cannot backtrack into a
successful `#` because the classes are disjoint), a hash byte, then the
non-greedy search. -/
def matchLine (line : List Nat) : Option (List Nat) :=
  match line.dropWhile (fun b => isSpaceTabFF b) with
  | [] => none
  | c :: rest => if c = 35 then searchCoding rest else none

/-! ## Byte-line splitting

Two splitters appear in the source: iterating a binary file handle
yields lines that keep their trailing newline byte and omit an empty
tail, while `bytes.split` on a newline removes the separator and keeps
empty parts.
-/

/-- Worker for `splitLinesKeepEnds`; `acc` holds the bytes of the
current line in reverse. -/
def splitLinesGo : List Nat → List Nat → List (List Nat)
  | [], acc => if acc.isEmpty then [] else [acc.reverse]
  | b :: rest, acc =>
    if b = 10 then (acc.reverse ++ [10]) :: splitLinesGo rest []
    else splitLinesGo rest (b :: acc)

/-- Model of iterating an open binary file: split after every newline
byte, keeping it, with no empty final line. -/
def splitLinesKeepEnds (bs : List Nat) : List (List Nat) :=
  splitLinesGo bs []

/-- Worker for `splitOnNewline`. -/
def splitNLGo : List Nat → List Nat → List (List Nat)
  | [], acc => [acc.reverse]
  | b :: rest, acc =>
    if b = 10 then acc.reverse :: splitNLGo rest []
    else splitNLGo rest (b :: acc)

/-- Model of `bytes.split` on the newline byte: separators removed,
empty parts kept, always one more part than separators. -/
def splitOnNewline (bs : List Nat) : List (List Nat) :=
  splitNLGo bs []

/-! ## ASCII decoding of the captured group -/

/-- Model of `bytes.decode` with the ascii codec: succeeds exactly when
every byte is below 128. -/
def asciiDecode (bs : List Nat) : Option String :=
  if bs.all (fun b => b < 128) then
    some (String.mk (bs.map (fun b => Char.ofNat b)))
  else none

/-! ## The stream scanner `_determine_stream_encoding` -/

/-- The loop body of `_determine_stream_encoding`: lines are numbered
from `n`, and the loop breaks once the line number exceeds 2.  Returns
the raw captured group of the first matching line. -/
def streamScan : List (List Nat) → Nat → Option (List Nat)
  | [], _ => none
  | line :: rest, n =>
    if n > 2 then none
    else
      match matchLine line with
      | some g => some g
      | none => streamScan rest (n + 1)

/-- Model of `_determine_stream_encoding`: scan the lines (numbered from
1) for an encoding declaration; decode the first captured group as
ascii, or fall back to `default`.  A `none` result models the
`UnicodeDecodeError` that `bytes.decode` would raise on a non-ascii
capture; the Python default argument value is `utf-8` and every call
site below passes it explicitly. -/
def _determine_stream_encoding (lines : List (List Nat)) (default : String) :
    Option String :=
  match streamScan lines 1 with
  | some g => asciiDecode g
  | none => some default

/-! ## Codec models

The module exercises the codecs registry only through `str.encode` and
the text-mode decoding performed by `open(...).read()`.  We model the
utf-8 codec exactly (strict mode: continuation ranges exclude overlong
forms, surrogates and code points above 0x10FFFF), the latin-1 codec
(total on bytes) and the ascii codec above; these are the only encoding
names the claims evaluate concretely.
-/

/-- UTF-8 encoding of one scalar value, by size class. -/
def charUtf8 (c : Char) : List Nat :=
  let n := c.toNat
  if n < 128 then [n]
  else if n < 2048 then [192 + n / 64, 128 + n % 64]
  else if n < 65536 then
    [224 + n / 4096, 128 + (n / 64) % 64, 128 + n % 64]
  else
    [240 + n / 262144, 128 + (n / 4096) % 64, 128 + (n / 64) % 64, 128 + n % 64]

/-- Model of `str.encode` with the utf-8 codec.  Lean strings hold only
Unicode scalar values, so encoding is total, exactly as the source
assumes for the strings it re-encodes. -/
def pyEncode (s : String) : List Nat :=
  s.data.flatMap charUtf8

/-- Classify a lead byte of strict UTF-8: either an ascii character, or
the initial accumulator together with the number of continuation bytes
still needed and the allowed range of the next byte.  The ranges for the
first continuation byte rule out overlong encodings, surrogate code
points, and code points above 0x10FFFF. -/
def utf8Classify (b : Nat) : Option (Char ⊕ (Nat × Nat × Nat × Nat)) :=
  if b < 128 then some (Sum.inl (Char.ofNat b))
  else if b < 194 then none
  else if b ≤ 223 then some (Sum.inr (b % 32, 1, 128, 191))
  else if b = 224 then some (Sum.inr (0, 2, 160, 191))
  else if b = 237 then some (Sum.inr (13, 2, 128, 159))
  else if b ≤ 239 then some (Sum.inr (b % 16, 2, 128, 191))
  else if b = 240 then some (Sum.inr (0, 3, 144, 191))
  else if b ≤ 243 then some (Sum.inr (b % 8, 3, 128, 191))
  else if b = 244 then some (Sum.inr (4, 3, 128, 143))
  else none

/-- Byte-at-a-time strict UTF-8 decoder.  The second argument carries
the state inside a multi-byte sequence: accumulator, count of
continuation bytes still expected, and the allowed range of the next
byte. -/
def utf8DecodeGo : List Nat → Option (Nat × Nat × Nat × Nat) → Option (List Char)
  | [], none => some []
  | [], some _ => none
  | b :: rest, none =>
    match utf8Classify b with
    | some (Sum.inl c) => (utf8DecodeGo rest none).map (fun cs => c :: cs)
    | some (Sum.inr st) => utf8DecodeGo rest (some st)
    | none => none
  | b :: rest, some (acc, cnt, lo, hi) =>
    if lo ≤ b ∧ b ≤ hi then
      let acc2 := acc * 64 + b % 64
      if cnt = 1 then
        (utf8DecodeGo rest none).map (fun cs => Char.ofNat acc2 :: cs)
      else utf8DecodeGo rest (some (acc2, cnt - 1, 128, 191))
    else none

/-- Model of strict utf-8 decoding of a whole byte string. -/
def utf8Decode (bs : List Nat) : Option String :=
  (utf8DecodeGo bs none).map (fun cs => String.mk cs)

/-- Model of latin-1 decoding: every byte decodes to the code point of
the same value, so decoding never fails. -/
def latin1Decode (bs : List Nat) : String :=
  String.mk (bs.map (fun b => Char.ofNat b))

/-- Model of opening a file in text mode with the named encoding and
reading it to the end: `some` is the decoded text, `none` the
`UnicodeDecodeError` raised during the read.  Only the codecs the
claims evaluate concretely are modelled; other names are outside the
model (looking one up in CPython would raise `LookupError`, which the
source never catches). -/
def pyDecode (encoding : String) (bs : List Nat) : Option String :=
  if encoding = "utf-8" then utf8Decode bs
  else if encoding = "ascii" then asciiDecode bs
  else if encoding = "latin-1" then some (latin1Decode bs)
  else none

/-! ## Errors and the file-encoding resolver -/

/-- Exceptions the embedded code can surface.  The constructor
`unableToDetermineEncoding` is the `UnableToDetermineEncoding` class of
`isort.exceptions` with its arguments; `valueError` is the `ValueError`
CPython raises for a binary-mode `open` called with an `encoding`
argument; `unicodeDecodeError` is an uncaught `UnicodeDecodeError`. -/
inductive PyError
  | unicodeDecodeError
  | valueError
  | unableToDetermineEncoding (path : String) (first : String) (fallback : String)
deriving DecidableEq, Repr

deriving instance DecidableEq for Except

/-- Outcome of `file_path.open("rb")` for the declaration scan.  Reading
an open binary handle performs no decoding, so in CPython the open and
the iteration succeed whenever the file is readable; the spec posits a
platform edge case where this open itself raises a decode-related
error, which we keep representable to settle that claim. -/
inductive BinOpenResult
  | ok
  | decodeError
deriving DecidableEq, Repr

/-- Model of `_determine_file_encoding`.  The filesystem is abstracted:
`fileBytes` is the byte content behind `file_path`, and `binOpen` is the
outcome of the binary-mode open of the scan.  The first `try` covers the
open, the line iteration and the ascii decode of the capture, so a
`none` from the scanner is caught by the same `except UnicodeDecodeError`.
In the handler the source runs `file_path.open("rb", encoding=fallback_encoding)`;
CPython rejects an `encoding` argument in binary mode with a
`ValueError` before touching the file, which the inner
`except UnicodeDecodeError` does not catch, so the handler never reaches
its scan and never raises `UnableToDetermineEncoding`. -/
def _determine_file_encoding (path : String) (fileBytes : List Nat)
    (binOpen : BinOpenResult) (localePreferred : String) (default : String) :
    Except PyError String :=
  let firstTry : Option String :=
    match binOpen with
    | .ok => _determine_stream_encoding (splitLinesKeepEnds fileBytes) default
    | .decodeError => none
  match firstTry with
  | some e => .ok e
  | none => .error .valueError

/-- Model of `_read_file_contents`.  The two text-mode open/read
attempts are the `decode` parameter applied to the declared encoding and
then to the locale-preferred fallback; a failed attempt is the
`UnicodeDecodeError` the source catches with `except ... pass`. -/
def _read_file_contents (path : String) (fileBytes : List Nat)
    (binOpen : BinOpenResult)
    (decode : String → List Nat → Option String)
    (localePreferred : String) : Except PyError (String × String) :=
  match _determine_file_encoding path fileBytes binOpen localePreferred "utf-8" with
  | .error e => .error e
  | .ok encoding =>
    match decode encoding fileBytes with
    | some fileContents => .ok (fileContents, encoding)
    | none =>
      match decode localePreferred fileBytes with
      | some fileContents => .ok (fileContents, localePreferred)
      | none => .error (.unableToDetermineEncoding path encoding localePreferred)

/-- Model of `_determine_content_encoding`: re-encode the string under
the default encoding, split on newlines, and scan.  Every call site
passes the default `utf-8`, so the re-encoding is modelled by the utf-8
codec. -/
def _determine_content_encoding (content : String) (default : String) :
    Option String :=
  _determine_stream_encoding (splitOnNewline (pyEncode content)) default

/-! ## Paths and the File value -/

/-- Model of `pathlib.Path` restricted to what the module observes of a
path: its final component (`name`).  `Path(filename).resolve()` prefixes
the current directory and leaves the final component unchanged for the
plain relative file names this module is handed, so resolution is the
identity on this projection. -/
structure PyPath where
  name : String
deriving DecidableEq, Repr

/-- Final slash-separated component of a file name, as `Path(...).name`
computes it for the plain names used here. -/
def lastComponent (s : String) : String :=
  String.mk ((s.data.reverse.takeWhile (fun c => c ≠ '/')).reverse)

/-- Model of the `suffix` property of `pathlib`: index of the last dot
of the name, or `none`. -/
def rfindDot : List Char → Option Nat
  | [] => none
  | c :: rest =>
    match rfindDot rest with
    | some i => some (i + 1)
    | none => if c = '.' then some 0 else none

/-- The `suffix` property of `pathlib.PurePath`: with `i` the index of
the last dot of the final component, the slice from `i` when
`0 < i < len(name) - 1`, otherwise the empty string. -/
def pySuffix (p : PyPath) : String :=
  match rfindDot p.name.data with
  | some i =>
    if 0 < i ∧ i + 1 < p.name.data.length then String.mk (p.name.data.drop i)
    else ""
  | none => ""

/-- Model of `str.lstrip` with argument a dot: drop every leading dot. -/
def pyLstripDot (s : String) : String :=
  String.mk (s.data.dropWhile (fun c => c = '.'))

/-- The text streams a `File` can hold: a lazy text-mode handle over the
bytes of a file with the encoding it was opened with, or an in-memory
string buffer (`StringIO`). -/
inductive StreamModel
  | fileStream (fileBytes : List Nat) (encoding : String)
  | stringBuf (contents : String)
deriving DecidableEq, Repr

/-- Reading a stream to the end: a string buffer yields its string; a
file stream decodes its bytes under its encoding. -/
def StreamModel.readAll : StreamModel → Option String
  | .fileStream bs enc => pyDecode enc bs
  | .stringBuf s => some s

/-- The `File` named tuple of the source: contents stream, resolved
path, resolved encoding.  A Lean structure is immutable, as a
`NamedTuple` is. -/
structure File where
  contents : StreamModel
  path : PyPath
  encoding : String
deriving DecidableEq, Repr

/-- Model of `File.read`: resolve the path, determine the encoding, and
open a fresh text-mode stream over the same bytes with that encoding
(`newline=""`, so no translation; the stream is lazy and has decoded
nothing yet when the value is returned). -/
def File.read (filename : String) (fileBytes : List Nat)
    (binOpen : BinOpenResult) (localePreferred : String) :
    Except PyError File :=
  let filePath : PyPath := ⟨lastComponent filename⟩
  match _determine_file_encoding filename fileBytes binOpen localePreferred "utf-8" with
  | .error e => .error e
  | .ok encoding =>
    .ok ⟨.fileStream fileBytes encoding, filePath, encoding⟩

/-- Model of `File.from_contents`: wrap the string in an in-memory
buffer and record the encoding determined from the content. -/
def File.from_contents (contents : String) (filename : String) : Option File :=
  match _determine_content_encoding contents "utf-8" with
  | some encoding => some ⟨.stringBuf contents, ⟨lastComponent filename⟩, encoding⟩
  | none => none

/-- The `extension` property of `File`. -/
def File.extension (f : File) : String :=
  pyLstripDot (pySuffix f.path)

/-! ## The null sink -/

/-- State of the `_EmptyIO` subclass of `StringIO`: the underlying
buffer it inherits. -/
structure NullSink where
  buffer : String
deriving DecidableEq, Repr

/-- The overridden `write` of `_EmptyIO`: accepts any arguments, leaves
the state untouched, and returns `None` (modelled as `none`; a real
text-stream write would return a count). -/
def NullSink.write {α : Type} (snk : NullSink) (args : α) :
    NullSink × Option Nat :=
  (snk, none)

/-- The module-level `Empty` instance. -/
def emptySink : NullSink :=
  ⟨""⟩

/-- First captured group among a list of lines; spells out the scan
order used to state characterization theorems about the scanner. -/
def firstMatchCapture : List (List Nat) → Option (List Nat)
  | [] => none
  | l :: rest =>
    match matchLine l with
    | some g => some g
    | none => firstMatchCapture rest

/-! ## Definitions taken from the words of the spec, for comparison

The claims describe the declaration pattern as: optional leading
space/tab/form-feed, then a hash, then any characters, then the literal
token `coding` followed by a colon or an equals sign, then an
identifier.  This wording differs from `_ENCODING_PATTERN` in one
point: it has no optional run of spaces and tabs between the colon or
equals sign and the identifier.  The following three definitions follow
the wording of the claim; they differ from `codingTail`, `searchCoding`
and `matchLine` only by the missing `dropWhile isSpaceTab`.
-/

/-- Modelled from the spec wording: after `coding` and the colon or
equals sign the identifier must follow immediately. -/
def specCodingTail (l : List Nat) : Option (List Nat) :=
  match l with
  | [] => none
  | c :: rest =>
    if c = 58 || c = 61 then
      let ident := rest.takeWhile (fun b => isIdentByte b)
      if ident.isEmpty then none else some ident
    else none

/-- Modelled from the spec wording: the search for the `coding` token,
with the spec version of the tail. -/
def specSearchCoding : List Nat → Option (List Nat)
  | [] => none
  | b :: rest =>
    match (if (b :: rest).take 6 = [99, 111, 100, 105, 110, 103] then
        specCodingTail ((b :: rest).drop 6) else none) with
    | some g => some g
    | none => if b = 10 then none else specSearchCoding rest

/-- Modelled from the spec wording: the full line pattern exactly as the
claim words it. -/
def specMatchLine (line : List Nat) : Option (List Nat) :=
  match line.dropWhile (fun b => isSpaceTabFF b) with
  | [] => none
  | c :: rest => if c = 35 then specSearchCoding rest else none

/-! ## The invariant claimed for the stored encoding -/

/-- Whether the declaration scan over the byte lines of a file finds a
declaration. -/
def declarationFound (bs : List Nat) : Bool :=
  (streamScan (splitLinesKeepEnds bs) 1).isSome

/-- The invariant claimed for a handle over its underlying bytes: the
stored encoding decoded the bytes successfully, or it is the default
utf-8 chosen because no declaration was found (in which case decoding
under it has not yet been attempted, hence has not yet failed). -/
def claimedEncodingInvariant (bs : List Nat) (f : File) : Prop :=
  pyDecode f.encoding bs ≠ none ∨
    (f.encoding = "utf-8" ∧ declarationFound bs = false)

instance (bs : List Nat) (f : File) : Decidable (claimedEncodingInvariant bs f) := by
  unfold claimedEncodingInvariant
  infer_instance

/-! ## Helper lemmas: the captured group is pure ascii -/

theorem isIdentByte_lt {b : Nat} (h : isIdentByte b = true) : b < 128 := by
  simp [isIdentByte] at h
  omega

theorem codingTail_ascii {l g : List Nat} (h : codingTail l = some g) :
    ∀ b ∈ g, b < 128 := by
  cases l with
  | nil => simp [codingTail] at h
  | cons c rest =>
    simp only [codingTail] at h
    split at h
    · split at h
      · exact absurd h (by simp)
      · intro b hb
        cases h
        exact isIdentByte_lt (List.mem_takeWhile_imp hb)
    · exact absurd h (by simp)

theorem tryCoding_ascii {l g : List Nat} (h : tryCoding l = some g) :
    ∀ b ∈ g, b < 128 := by
  simp only [tryCoding] at h
  split at h
  · exact codingTail_ascii h
  · exact absurd h (by simp)

theorem searchCoding_ascii : ∀ {l g : List Nat}, searchCoding l = some g →
    ∀ b ∈ g, b < 128 := by
  intro l
  induction l with
  | nil => intro g h; simp [searchCoding] at h
  | cons b rest ih =>
    intro g h
    rw [searchCoding] at h
    cases htc : tryCoding (b :: rest) with
    | some g2 =>
      simp only [htc] at h
      cases h
      exact tryCoding_ascii htc
    | none =>
      simp only [htc] at h
      split at h
      · exact absurd h (by simp)
      · exact ih h

theorem matchLine_ascii {line g : List Nat} (h : matchLine line = some g) :
    ∀ b ∈ g, b < 128 := by
  unfold matchLine at h
  cases hd : line.dropWhile (fun b => isSpaceTabFF b) with
  | nil => simp [hd] at h
  | cons c rest =>
    simp only [hd] at h
    split at h
    · exact searchCoding_ascii h
    · exact absurd h (by simp)

theorem streamScan_ascii : ∀ {lines : List (List Nat)} {n : Nat} {g : List Nat},
    streamScan lines n = some g → ∀ b ∈ g, b < 128 := by
  intro lines
  induction lines with
  | nil => intro n g h; simp [streamScan] at h
  | cons l rest ih =>
    intro n g h
    rw [streamScan] at h
    split at h
    · exact absurd h (by simp)
    · cases hm : matchLine l with
      | some g2 =>
        simp only [hm] at h
        cases h
        exact matchLine_ascii hm
      | none =>
        simp only [hm] at h
        exact ih h

theorem asciiDecode_of_ascii {g : List Nat} (h : ∀ b ∈ g, b < 128) :
    asciiDecode g = some (String.mk (g.map (fun b => Char.ofNat b))) := by
  have hall : g.all (fun b => b < 128) = true := by
    rw [List.all_eq_true]
    intro b hb
    simpa using h b hb
  simp [asciiDecode, hall]

/-- Totality of the scanner: the ascii decode of a captured group never
fails, so `_determine_stream_encoding` always returns a value. -/
theorem stream_encoding_total (lines : List (List Nat)) (default : String) :
    ∃ s, _determine_stream_encoding lines default = some s := by
  unfold _determine_stream_encoding
  cases h : streamScan lines 1 with
  | none => exact ⟨default, rfl⟩
  | some g => exact ⟨_, asciiDecode_of_ascii (streamScan_ascii h)⟩

/-! ## Helper lemmas: scan order and line splitting -/

theorem streamScan_stop {lines : List (List Nat)} {n : Nat} (h : n > 2) :
    streamScan lines n = none := by
  cases lines with
  | nil => rfl
  | cons l rest => rw [streamScan]; simp [h]

theorem streamScan_cons (l : List Nat) (rest : List (List Nat)) (n : Nat)
    (h : ¬ n > 2) :
    streamScan (l :: rest) n =
      match matchLine l with
      | some g => some g
      | none => streamScan rest (n + 1) := by
  rw [streamScan, if_neg h]

/-- The scanner inspects exactly the first two lines, in order. -/
theorem streamScan_firstTwo (lines : List (List Nat)) :
    streamScan lines 1 = firstMatchCapture (lines.take 2) := by
  cases lines with
  | nil => rfl
  | cons l1 rest =>
    rw [streamScan_cons _ _ _ (by omega)]
    cases rest with
    | nil =>
      cases h1 : matchLine l1 <;> simp [h1, streamScan, firstMatchCapture]
    | cons l2 rest2 =>
      rw [show (l1 :: l2 :: rest2).take 2 = [l1, l2] from rfl]
      cases h1 : matchLine l1 with
      | some g => simp [h1, firstMatchCapture]
      | none =>
        simp only [h1]
        rw [streamScan_cons _ _ _ (by omega)]
        cases h2 : matchLine l2 with
        | some g => simp [h1, h2, firstMatchCapture]
        | none =>
          simp only [h2]
          rw [streamScan_stop (by omega)]
          simp [h1, h2, firstMatchCapture]

/-- A scanner run starting with a matching line returns its capture. -/
theorem scan_firstLine {l1 g : List Nat} (h : matchLine l1 = some g)
    (tail : List (List Nat)) (default : String) :
    _determine_stream_encoding (l1 :: tail) default = asciiDecode g := by
  unfold _determine_stream_encoding
  rw [streamScan]
  simp [h]

theorem splitLinesGo_append (pre rest acc : List Nat)
    (h : ∀ b ∈ pre, b ≠ 10) :
    splitLinesGo (pre ++ 10 :: rest) acc =
      (acc.reverse ++ pre ++ [10]) :: splitLinesGo rest [] := by
  induction pre generalizing acc with
  | nil => simp [splitLinesGo]
  | cons b pre ih =>
    have hb : b ≠ 10 := h b (List.mem_cons_self _ _)
    have h2 : ∀ x ∈ pre, x ≠ 10 := fun x hx => h x (List.mem_cons_of_mem _ hx)
    simp only [List.cons_append, splitLinesGo, if_neg hb, List.append_eq]
    rw [ih (b :: acc) h2]
    simp

/-- The scanner behavior, phrased over the first two lines only. -/
theorem scan_characterization (lines : List (List Nat)) (default : String) :
    _determine_stream_encoding lines default =
      match firstMatchCapture (lines.take 2) with
      | some g => asciiDecode g
      | none => some default := by
  unfold _determine_stream_encoding
  rw [streamScan_firstTwo]

/-- The file-encoding resolver, when the binary open succeeds, returns
exactly the scanner verdict over the byte lines of the file. -/
theorem file_encoding_ok (path : String) (fileBytes : List Nat)
    (locale default : String) :
    ∃ s, _determine_file_encoding path fileBytes .ok locale default = .ok s ∧
      _determine_stream_encoding (splitLinesKeepEnds fileBytes) default = some s := by
  obtain ⟨s, hs⟩ := stream_encoding_total (splitLinesKeepEnds fileBytes) default
  exact ⟨s, by simp [_determine_file_encoding, hs], hs⟩

/-! ## The claims -/

/-- C10: when the declaration scanner finds a match, decoding the
captured identifier as ascii never fails, because the pattern restricts
the capture to the ascii bytes for letters, digits, hyphen, underscore
and dot; hence the scanner is a total function over byte-line
sequences. -/
theorem claim_C10 (lines : List (List Nat)) (default : String) :
    (∀ g, streamScan lines 1 = some g → ∃ s, asciiDecode g = some s) ∧
    ∃ s, _determine_stream_encoding lines default = some s := by
  constructor
  · intro g hg
    exact ⟨_, asciiDecode_of_ascii (streamScan_ascii hg)⟩
  · exact stream_encoding_total lines default

/-- Witness for C10 at a concrete declaration line with a capture. -/
theorem claim_C10_witness :
    (∃ s, asciiDecode (pyEncode "ascii") = some s) ∧
    ∃ s, _determine_stream_encoding [pyEncode "# coding: ascii"] "utf-8" = some s := by
  exact ⟨(claim_C10 [pyEncode "# coding: ascii"] "utf-8").1 (pyEncode "ascii") (by decide),
    (claim_C10 [pyEncode "# coding: ascii"] "utf-8").2⟩

/-- C2 counterexample: under the pattern exactly as the claim words it
(no optional whitespace between the colon or equals sign and the
identifier), the canonical declaration comment matches no line at all,
so the claim requires the default utf-8; the scanner of the source
returns latin-1 instead. -/
theorem claim_C2_counterexample :
    specMatchLine (pyEncode "# -*- coding: latin-1 -*-") = none ∧
    _determine_stream_encoding [pyEncode "# -*- coding: latin-1 -*-"] "utf-8" =
      some "latin-1" ∧
    "latin-1" ≠ "utf-8" := by decide

/-- C2 (amended): the scanner examines only the first two lines; it
returns the ascii decoding of the captured identifier of the first line
matching the pattern, which allows an optional run of spaces and tabs
between the colon or equals sign and the identifier; if neither of the
first two lines matches it returns the default utf-8; a declaration
appearing only on line 3 or later is ignored. -/
theorem claim_C2 (lines : List (List Nat)) :
    _determine_stream_encoding lines "utf-8" =
      match firstMatchCapture (lines.take 2) with
      | some g => asciiDecode g
      | none => some "utf-8" :=
  scan_characterization lines "utf-8"

/-- C1: the file-contents reader first attempts to fully decode the file
under the declared (or default utf-8) encoding and returns the content
with that encoding on success; if that decode fails it attempts the
locale-preferred fallback and returns the content with the fallback on
success; and it produces the EncodingUndeterminable error, carrying the
path, the encoding that failed first, and the fallback encoding, if and
only if both attempts fail to decode. -/
theorem claim_C1 (path : String) (fileBytes : List Nat)
    (decode : String → List Nat → Option String) (locale declared : String)
    (hdecl : _determine_file_encoding path fileBytes .ok locale "utf-8" = .ok declared) :
    (∀ c, decode declared fileBytes = some c →
      _read_file_contents path fileBytes .ok decode locale = .ok (c, declared)) ∧
    (∀ c, decode declared fileBytes = none → decode locale fileBytes = some c →
      _read_file_contents path fileBytes .ok decode locale = .ok (c, locale)) ∧
    (_read_file_contents path fileBytes .ok decode locale =
        .error (.unableToDetermineEncoding path declared locale) ↔
      decode declared fileBytes = none ∧ decode locale fileBytes = none) := by
  unfold _read_file_contents
  simp only [hdecl]
  refine ⟨?_, ?_, ?_⟩
  · intro c hc
    simp only [hc]
  · intro c hc1 hc2
    simp only [hc1, hc2]
  · constructor
    · intro h
      cases hc1 : decode declared fileBytes with
      | some c => simp [hc1] at h
      | none =>
        cases hc2 : decode locale fileBytes with
        | some c => simp [hc1, hc2] at h
        | none => exact ⟨rfl, rfl⟩
    · rintro ⟨hc1, hc2⟩
      simp only [hc1, hc2]

/-- Witness for C1: a run through each branch of the fallback chain at
concrete bytes, with the concrete codecs. -/
theorem claim_C1_witness :
    _read_file_contents "f.py" [104] .ok pyDecode "latin-1" = .ok ("h", "utf-8") ∧
    _read_file_contents "f.py" [255] .ok pyDecode "latin-1" =
      .ok (String.mk [Char.ofNat 255], "latin-1") ∧
    _read_file_contents "f.py" [255] .ok pyDecode "ascii" =
      .error (.unableToDetermineEncoding "f.py" "utf-8" "ascii") := by
  refine ⟨?_, ?_, ?_⟩
  · exact (claim_C1 "f.py" [104] pyDecode "latin-1" "utf-8" (by decide)).1 "h" (by decide)
  · exact (claim_C1 "f.py" [255] pyDecode "latin-1" "utf-8" (by decide)).2.1
      (String.mk [Char.ofNat 255]) (by decide) (by decide)
  · exact (claim_C1 "f.py" [255] pyDecode "ascii" "utf-8" (by decide)).2.2.mpr
      ⟨by decide, by decide⟩

/-- C4: evaluation of the code on the posited failing input.  When the
binary-mode open of the declaration scan raises the decode-related
error, the handler re-opens the file in binary mode with an encoding
argument; CPython rejects that call with a ValueError before reading
anything, so the scan is never retried with the locale-preferred
encoding and EncodingUndeterminable is never raised on this path,
contrary to the claim. -/
theorem claim_C4_eval (path : String) (fileBytes : List Nat)
    (locale default : String) :
    _determine_file_encoding path fileBytes .decodeError locale default =
      .error .valueError :=
  rfl

/-- C9: the null sink write is a no-op that never raises: it accepts
arbitrary arguments, returns None, and after any sequence of writes the
state is unchanged. -/
theorem claim_C9 {α : Type} (snk : NullSink) (writes : List α) :
    writes.foldl (fun s a => (NullSink.write s a).1) snk = snk ∧
    ∀ a : α, NullSink.write snk a = (snk, none) := by
  constructor
  · induction writes with
    | nil => rfl
    | cons a rest ih => exact ih
  · intro a
    rfl

/-- C3 counterexample: reading a file that declares ascii but contains a
non-ascii byte yields a handle whose stored encoding, ascii, has never
decoded the underlying bytes (it cannot) and is not the default chosen
for lack of a declaration; the claimed invariant fails for this
handle. -/
theorem claim_C3_counterexample :
    File.read "f.py" (pyEncode "# coding: ascii\n" ++ [255]) .ok "latin-1" =
      .ok ⟨.fileStream (pyEncode "# coding: ascii\n" ++ [255]) "ascii",
        ⟨"f.py"⟩, "ascii"⟩ ∧
    ¬ claimedEncodingInvariant (pyEncode "# coding: ascii\n" ++ [255])
      ⟨.fileStream (pyEncode "# coding: ascii\n" ++ [255]) "ascii",
        ⟨"f.py"⟩, "ascii"⟩ := by
  decide

/-- C3 (amended): for handles from both construction entry points the
stored encoding field is exactly the outcome of the declaration scan
over the underlying bytes: the declared encoding when a declaration is
found in the first two lines, the default utf-8 otherwise.  Decoding of
the bytes under that encoding need not have been attempted at
construction time and may fail later.  The handle is immutable after
creation. -/
theorem claim_C3 :
    (∀ filename fileBytes locale f,
      File.read filename fileBytes .ok locale = .ok f →
        some f.encoding =
          _determine_stream_encoding (splitLinesKeepEnds fileBytes) "utf-8") ∧
    (∀ contents filename f,
      File.from_contents contents filename = some f →
        some f.encoding = _determine_content_encoding contents "utf-8") := by
  constructor
  · intro filename fileBytes locale f hf
    obtain ⟨s, hs1, hs2⟩ := file_encoding_ok filename fileBytes locale "utf-8"
    unfold File.read at hf
    simp only [hs1] at hf
    cases hf
    exact hs2.symm
  · intro contents filename f hf
    unfold File.from_contents at hf
    cases hc : _determine_content_encoding contents "utf-8" with
    | some e =>
      simp only [hc] at hf
      cases hf
      rfl
    | none =>
      simp [hc] at hf

/-- Witness for C3: the amended statement applied to the two concrete
handles of the counterexample setting. -/
theorem claim_C3_witness :
    some "ascii" =
      _determine_stream_encoding
        (splitLinesKeepEnds (pyEncode "# coding: ascii\n" ++ [255])) "utf-8" ∧
    some "utf-8" = _determine_content_encoding "x = 1\n" "utf-8" := by
  exact ⟨claim_C3.1 "f.py" (pyEncode "# coding: ascii\n" ++ [255]) "latin-1"
      ⟨.fileStream (pyEncode "# coding: ascii\n" ++ [255]) "ascii", ⟨"f.py"⟩, "ascii"⟩
      (by decide),
    claim_C3.2 "x = 1\n" "buf.py"
      ⟨.stringBuf "x = 1\n", ⟨"buf.py"⟩, "utf-8"⟩ (by decide)⟩

/-- C5: construction from in-memory content never fails with a decode
error: it returns a handle whose encoding is the declared encoding found
by scanning the utf-8 re-encoding of the string (utf-8 when none is
found) and whose contents stream holds the original string unchanged. -/
theorem claim_C5 (contents filename : String) :
    ∃ f, File.from_contents contents filename = some f ∧
      some f.encoding =
        (match firstMatchCapture ((splitOnNewline (pyEncode contents)).take 2) with
         | some g => asciiDecode g
         | none => some "utf-8") ∧
      f.contents = .stringBuf contents := by
  obtain ⟨s, hs⟩ := stream_encoding_total (splitOnNewline (pyEncode contents)) "utf-8"
  refine ⟨⟨.stringBuf contents, ⟨lastComponent filename⟩, s⟩, ?_, ?_, rfl⟩
  · unfold File.from_contents _determine_content_encoding
    simp only [hs]
  · rw [← scan_characterization (splitOnNewline (pyEncode contents)) "utf-8"]
    exact hs.symm

/-- C6: for byte content whose first line is the comment declaring
latin-1, the resolved encoding is exactly latin-1 whatever the default
and the locale are, whatever follows on later lines; reading such a file
then returns its latin-1 decoding paired with latin-1. -/
theorem claim_C6 (rest : List Nat) (path locale default : String) :
    _determine_file_encoding path
      (pyEncode "# -*- coding: latin-1 -*-" ++ 10 :: rest) .ok locale default =
      .ok "latin-1" ∧
    _read_file_contents path
      (pyEncode "# -*- coding: latin-1 -*-" ++ 10 :: rest) .ok pyDecode locale =
      .ok (latin1Decode (pyEncode "# -*- coding: latin-1 -*-" ++ 10 :: rest),
        "latin-1") := by
  have hm : matchLine (pyEncode "# -*- coding: latin-1 -*-" ++ [10]) =
      some [108, 97, 116, 105, 110, 45, 49] := by decide
  have hsplit : splitLinesKeepEnds (pyEncode "# -*- coding: latin-1 -*-" ++ 10 :: rest) =
      (pyEncode "# -*- coding: latin-1 -*-" ++ [10]) :: splitLinesGo rest [] := by
    unfold splitLinesKeepEnds
    rw [splitLinesGo_append _ _ _ (by decide)]
    simp
  have hscan : ∀ d : String, _determine_stream_encoding
      (splitLinesKeepEnds (pyEncode "# -*- coding: latin-1 -*-" ++ 10 :: rest)) d =
      some "latin-1" := by
    intro d
    rw [hsplit, scan_firstLine hm]
    decide
  have henc : ∀ d : String, _determine_file_encoding path
      (pyEncode "# -*- coding: latin-1 -*-" ++ 10 :: rest) .ok locale d =
      .ok "latin-1" := by
    intro d
    simp [_determine_file_encoding, hscan d]
  refine ⟨henc default, ?_⟩
  unfold _read_file_contents
  simp only [henc "utf-8"]
  have hlat : pyDecode "latin-1" (pyEncode "# -*- coding: latin-1 -*-" ++ 10 :: rest) =
      some (latin1Decode (pyEncode "# -*- coding: latin-1 -*-" ++ 10 :: rest)) := rfl
  simp only [hlat]

/-- C7: constructing a handle from the in-memory content "x = 1\n" with
the name "buf.py" yields extension py, encoding utf-8, and a stream that
reads back exactly "x = 1\n". -/
theorem claim_C7 :
    File.from_contents "x = 1\n" "buf.py" =
      some ⟨.stringBuf "x = 1\n", ⟨"buf.py"⟩, "utf-8"⟩ ∧
    (File.mk (.stringBuf "x = 1\n") ⟨"buf.py"⟩ "utf-8").extension = "py" ∧
    (File.mk (.stringBuf "x = 1\n") ⟨"buf.py"⟩ "utf-8").contents.readAll =
      some "x = 1\n" := by
  decide

/-! ## Suffix lemmas for C8 -/

theorem rfindDot_none : ∀ {cs : List Char}, rfindDot cs = none → '.' ∉ cs := by
  intro cs
  induction cs with
  | nil => intro _ hm; simp at hm
  | cons c rest ih =>
    intro h
    rw [rfindDot] at h
    cases hr : rfindDot rest with
    | some i => simp [hr] at h
    | none =>
      simp only [hr] at h
      split at h
      next hc => exact absurd h (by simp)
      next hc =>
        simp only [List.mem_cons]
        rintro (heq | hm)
        · exact hc heq.symm
        · exact ih hr hm

theorem rfindDot_some : ∀ {cs : List Char} {i : Nat}, rfindDot cs = some i →
    ∃ pre post, cs = pre ++ '.' :: post ∧ pre.length = i ∧ '.' ∉ post := by
  intro cs
  induction cs with
  | nil => intro i h; simp [rfindDot] at h
  | cons c rest ih =>
    intro i h
    rw [rfindDot] at h
    cases hr : rfindDot rest with
    | some j =>
      simp only [hr] at h
      cases h
      obtain ⟨pre, post, h1, h2, h3⟩ := ih hr
      exact ⟨c :: pre, post, by rw [List.cons_append, h1], by simp [h2], h3⟩
    | none =>
      simp only [hr] at h
      split at h
      next hc =>
        cases h
        exact ⟨[], rest, by rw [List.nil_append, hc], rfl, rfindDot_none hr⟩
      next hc => exact absurd h (by simp)

/-- C8: the derived extension equals the path suffix with its leading
dot stripped (the suffix never has more than one leading dot, so exactly
one is stripped), and is the empty string when the path has no
suffix. -/
theorem claim_C8 (f : File) :
    (pySuffix f.path = "" → f.extension = "") ∧
    (pySuffix f.path ≠ "" → "." ++ f.extension = pySuffix f.path) := by
  constructor
  · intro h
    unfold File.extension
    rw [h]
    rfl
  · intro h
    unfold File.extension pyLstripDot
    unfold pySuffix at h ⊢
    cases hr : rfindDot f.path.name.data with
    | none => simp only [hr] at h; exact absurd rfl h
    | some i =>
      simp only [hr] at h ⊢
      by_cases hcond : 0 < i ∧ i + 1 < f.path.name.data.length
      · rw [if_pos hcond] at h ⊢
        obtain ⟨pre, post, h1, h2, h3⟩ := rfindDot_some hr
        have hdrop : f.path.name.data.drop i = '.' :: post := by
          rw [h1, ← h2, List.drop_left]
        rw [hdrop]
        have hpost : post.dropWhile (fun c => c = '.') = post := by
          cases post with
          | nil => rfl
          | cons q t =>
            have hq : ¬ q = '.' := fun hq => h3 (hq ▸ List.mem_cons_self _ _)
            simp [List.dropWhile_cons, hq]
        have hstep : ('.' :: post).dropWhile (fun c => c = '.') = post := by
          simp [List.dropWhile_cons, hpost]
        show "." ++ String.mk (('.' :: post).dropWhile (fun c => c = '.')) =
          String.mk ('.' :: post)
        rw [hstep]
        rfl
      · rw [if_neg hcond] at h
        exact absurd rfl h

/-- Witness for C8: one path without a suffix, one with. -/
theorem claim_C8_witness :
    (File.mk (.stringBuf "") ⟨"README"⟩ "utf-8").extension = "" ∧
    "." ++ (File.mk (.stringBuf "") ⟨"a.py"⟩ "utf-8").extension =
      pySuffix ⟨"a.py"⟩ := by
  exact ⟨(claim_C8 (File.mk (.stringBuf "") ⟨"README"⟩ "utf-8")).1 (by decide),
    (claim_C8 (File.mk (.stringBuf "") ⟨"a.py"⟩ "utf-8")).2 (by decide)⟩

end Isort

